import Mathlib

/-!
Shallow embedding of the checksum/digest utility core of rtl_433
(`src/include/util.h`).  The repository only ships the header with the
declarations; every function body below is therefore modelled from the
specification's algorithm descriptions (sections 4.1–4.4 of the spec).

Byte buffers are `List Nat` (each element a byte value), machine integers
are `Nat` with explicit `% 2^w` masking where the fixed register width
matters, and the one fallible operation returns `Except`.
-/

/-- Error taxonomy of the spec (section 7): `InvalidLength` for a buffer
shorter than the declared count, `InvalidBitCount` for a digest requested
over more bits than the integer input can hold. -/
inductive UtilError : Type where
  | InvalidLength : UtilError
  | InvalidBitCount : UtilError
deriving DecidableEq

/-- Reverse the low `n` bits of `x`: bit 0 goes to position `n-1`, etc. -/
def revN : Nat → Nat → Nat
  | 0, _ => 0
  | n + 1, x => x % 2 * 2 ^ n + revN n (x / 2)

/-- Modelled from the spec: the body of `reverse8` is missing from `src`
(only declared in `util.h`).  Spec 4.1: `reverse8(x) -> y` where bit i of y
equals bit (7-i) of x, for i in 0..7. -/
def reverse8 (x : Nat) : Nat := revN 8 x

/-- 16-bit bit reflection, used by the spec's cross-variant CRC-16
consistency property ("after reflecting one result's bits"). -/
def reverse16 (x : Nat) : Nat := revN 16 x

/-- Modelled from the spec: the body of `reflect_bytes` is missing from
`src`.  Spec 4.1: replaces each byte with its bit-reflection, preserving
byte order. -/
def reflect_bytes (message : List Nat) : List Nat := message.map reverse8

/-- One bit step of the MSB-first CRC-4 (spec 4.2, width 4: register in the
low 4 bits, top-bit test at bit 3): shift left, bring the message bit in at
the vacated bottom, XOR the polynomial if the expelled bit was 1. -/
def crc4_bit (poly r b : Nat) : Nat :=
  let out := r / 8 % 2
  let r2 := (2 * r + b) % 16
  if out = 1 then (r2 ^^^ poly) % 16 else r2

/-- Modelled from the spec: the body of `crc4` is missing from `src`.
Spec 4.2, MSB-first shift-register CRC, width 4. -/
def crc4 (message : List Nat) (polynomial init : Nat) : Nat :=
  message.foldl (fun r byte =>
    (List.range 8).foldl (fun r i => crc4_bit polynomial r (byte / 2 ^ (7 - i) % 2)) r) init

/-- One bit step of the MSB-first CRC-7 (spec 4.2, width 7: register in the
low 7 bits, top-bit test at bit 6). -/
def crc7_bit (poly r b : Nat) : Nat :=
  let out := r / 64 % 2
  let r2 := (2 * r + b) % 128
  if out = 1 then (r2 ^^^ poly) % 128 else r2

/-- Modelled from the spec: the body of `crc7` is missing from `src`.
Spec 4.2, MSB-first shift-register CRC, width 7. -/
def crc7 (message : List Nat) (polynomial init : Nat) : Nat :=
  message.foldl (fun r byte =>
    (List.range 8).foldl (fun r i => crc7_bit polynomial r (byte / 2 ^ (7 - i) % 2)) r) init

/-- One bit step of the MSB-first CRC-8 (spec 4.2, width 8). -/
def crc8_bit (poly r b : Nat) : Nat :=
  let out := r / 128 % 2
  let r2 := (2 * r + b) % 256
  if out = 1 then (r2 ^^^ poly) % 256 else r2

/-- Modelled from the spec: the body of `crc8` is missing from `src`.
Spec 4.2, MSB-first shift-register CRC, width 8. -/
def crc8 (message : List Nat) (polynomial init : Nat) : Nat :=
  message.foldl (fun r byte =>
    (List.range 8).foldl (fun r i => crc8_bit polynomial r (byte / 2 ^ (7 - i) % 2)) r) init

/-- One bit step of the LSB-first CRC-8 (spec 4.2, "LE" variant, width 8):
shift right, bring the message bit in at the vacated top (bit 7), XOR the
(already reflected) polynomial if the expelled bottom bit was 1. -/
def crc8le_bit (poly r b : Nat) : Nat :=
  let out := r % 2
  let r2 := r / 2 + b * 128
  if out = 1 then (r2 ^^^ poly) % 256 else r2

/-- Modelled from the spec: the body of `crc8le` is missing from `src`.
Spec 4.2, LSB-first shift-register CRC, width 8; message bits are consumed
least significant bit first. -/
def crc8le (message : List Nat) (polynomial init : Nat) : Nat :=
  message.foldl (fun r byte =>
    (List.range 8).foldl (fun r i => crc8le_bit polynomial r (byte / 2 ^ i % 2)) r) init

/-- One bit step of the MSB-first CRC-16 (spec 4.2, width 16). -/
def crc16_bit (poly r b : Nat) : Nat :=
  let out := r / 32768 % 2
  let r2 := (2 * r + b) % 65536
  if out = 1 then (r2 ^^^ poly) % 65536 else r2

/-- Modelled from the spec: the body of `crc16` is missing from `src`.
Spec 4.2, MSB-first shift-register CRC, width 16. -/
def crc16 (message : List Nat) (polynomial init : Nat) : Nat :=
  message.foldl (fun r byte =>
    (List.range 8).foldl (fun r i => crc16_bit polynomial r (byte / 2 ^ (7 - i) % 2)) r) init

/-- One bit step of the LSB-first CRC-16 (spec 4.2, width 16): shift right,
message bit in at bit 15, feedback on the expelled bottom bit. -/
def crc16lsb_bit (poly r b : Nat) : Nat :=
  let out := r % 2
  let r2 := r / 2 + b * 32768
  if out = 1 then (r2 ^^^ poly) % 65536 else r2

/-- Modelled from the spec: the body of `crc16lsb` is missing from `src`.
Spec 4.2, LSB-first shift-register CRC, width 16; polynomial and init are
supplied already reflected. -/
def crc16lsb (message : List Nat) (polynomial init : Nat) : Nat :=
  message.foldl (fun r byte =>
    (List.range 8).foldl (fun r i => crc16lsb_bit polynomial r (byte / 2 ^ i % 2)) r) init

/-- One bit step of the reference bit-serial CRC of claim C1 / spec 4.2,
parameterized by the register width `W` and the bit direction `le`. -/
def crcRef_bit (W : Nat) (le : Bool) (poly r b : Nat) : Nat :=
  let out := if le then r % 2 else r / 2 ^ (W - 1) % 2
  let r2 := if le then r / 2 + b * 2 ^ (W - 1) else (2 * r + b) % 2 ^ W
  if out = 1 then (r2 ^^^ poly) % 2 ^ W else r2

/-- The reference bit-serial CRC computation as the spec's shared algorithm
describes it: width-W register starting at `init`; per byte, per bit
(MSB-first, or LSB-first when `le`), shift one bit (toward the top, or the
bottom when `le`), bring the message bit in at the vacated position, XOR the
polynomial when the expelled bit was 1; finally truncate to W bits. -/
def crcRef (W : Nat) (le : Bool) (message : List Nat) (polynomial init : Nat) : Nat :=
  (message.foldl (fun r byte =>
    (List.range 8).foldl
      (fun r i => crcRef_bit W le polynomial r (byte / 2 ^ (if le then i else 7 - i) % 2)) r)
    init) % 2 ^ W

/-- One LFSR advance of the 8-bit key (spec 4.3): if the top bit of the key
is 1, shift left and XOR with `gen`, else shift left only; mask to 8 bits
after each step. -/
def lfsr_step8 (gen key : Nat) : Nat :=
  if key / 128 % 2 = 1 then (key * 2 ^^^ gen) % 256 else key * 2 % 256

/-- Modelled from the spec: the body of `lfsr_digest8` is missing from
`src`.  Spec 4.3: per message byte, per bit MSB-first, XOR the accumulating
digest (seeded with 0, the empty XOR accumulation) with the current key
when the message bit is 1, then advance the key one LFSR step. -/
def lfsr_digest8 (message : List Nat) (gen key : Nat) : Nat :=
  (message.foldl (fun p byte =>
    (List.range 8).foldl (fun p i =>
      (if byte / 2 ^ (7 - i) % 2 = 1 then p.1 ^^^ p.2 else p.1, lfsr_step8 gen p.2)) p)
    (0, key)).1

/-- One LFSR advance of the 16-bit key (spec 4.3, same algorithm as the
8-bit step with a 16-bit register). -/
def lfsr_step16 (gen key : Nat) : Nat :=
  if key / 32768 % 2 = 1 then (key * 2 ^^^ gen) % 65536 else key * 2 % 65536

/-- Modelled from the spec: the body of `lfsr_digest16` is missing from
`src`.  Spec 4.3 and 7: same algorithm as `lfsr_digest8` over a single
LSB-aligned integer, bits consumed from bit `bits-1` down to bit 0 with a
16-bit digest/key register; `bits` is a signed `int` in the declaration,
and a value above 32 is rejected with `InvalidBitCount` as the spec's
error-handling design prescribes. -/
def lfsr_digest16 (data : Nat) (bits : Int) (gen key : Nat) : Except UtilError Nat :=
  if 32 < bits then Except.error UtilError.InvalidBitCount
  else Except.ok
    (((List.range bits.toNat).reverse.foldl (fun p bit =>
      (if data / 2 ^ bit % 2 = 1 then p.1 ^^^ p.2 else p.1, lfsr_step16 gen p.2))
      (0, key)).1)

/-- Modelled from the spec: the body of `parity8` is missing from `src`.
Spec 4.4: population count of the 8 bits, mod 2. -/
def parity8 (byte : Nat) : Nat :=
  ((List.range 8).foldl (fun s i => s + byte / 2 ^ i % 2) 0) % 2

/-- Modelled from the spec: the body of `parity_bytes` is missing from
`src`.  Spec 4.4: XOR-reduction of `parity8` over all bytes. -/
def parity_bytes (message : List Nat) : Nat :=
  message.foldl (fun p b => p ^^^ parity8 b) 0

/-- Modelled from the spec: the body of `xor_bytes` is missing from `src`.
Spec 4.4: bytewise XOR-reduction of the buffer. -/
def xor_bytes (message : List Nat) : Nat :=
  message.foldl (fun a b => a ^^^ b) 0

/-- Modelled from the spec: the body of `add_bytes` is missing from `src`.
Spec 4.4: integer sum of all bytes. -/
def add_bytes (message : List Nat) : Nat :=
  message.foldl (fun a b => a + b) 0

theorem revN_lt (n x : Nat) : revN n x < 2 ^ n := by
  induction n generalizing x with
  | zero => simp [revN]
  | succ n ih =>
    have h1 : x % 2 ≤ 1 := by omega
    have h2 : revN n (x / 2) < 2 ^ n := ih (x / 2)
    have h3 : revN (n + 1) x = x % 2 * 2 ^ n + revN n (x / 2) := rfl
    rw [h3, pow_succ]
    nlinarith

theorem revN_testBit (n x : Nat) (j : Nat) (hj : j < n) :
    (revN n x).testBit j = x.testBit (n - 1 - j) := by
  induction n generalizing x j with
  | zero => omega
  | succ n ih =>
    have hrw : revN (n + 1) x = 2 ^ n * (x % 2) + revN n (x / 2) := by
      rw [revN, Nat.mul_comm]
    rw [hrw, Nat.mul_add_lt_is_or (revN_lt n (x / 2)), Nat.testBit_lor]
    have hsh : 2 ^ n * (x % 2) = (x % 2) <<< n := by
      rw [Nat.shiftLeft_eq, Nat.mul_comm]
    rw [hsh, Nat.testBit_shiftLeft]
    rcases Nat.lt_or_ge j n with h | h
    · have hd : (decide (j ≥ n) : Bool) = false := by simp; omega
      rw [hd, Bool.false_and, Bool.false_or, ih (x / 2) j h, Nat.testBit_div_two]
      congr 1
      omega
    · have hjn : j = n := by omega
      subst hjn
      have hd : (decide (j ≥ j) : Bool) = true := by simp
      rw [hd, Bool.true_and, Nat.sub_self]
      have hfalse : (revN j (x / 2)).testBit j = false :=
        Nat.testBit_lt_two_pow (revN_lt j (x / 2))
      rw [hfalse, Bool.or_false]
      have he : j + 1 - 1 - j = 0 := by omega
      rw [he]
      have hmm : x % 2 % 2 = x % 2 := by omega
      rw [Nat.testBit_zero, Nat.testBit_zero, hmm]

theorem revN_testBit_high (n x j : Nat) (hj : n ≤ j) : (revN n x).testBit j = false :=
  Nat.testBit_lt_two_pow (lt_of_lt_of_le (revN_lt n x) (Nat.pow_le_pow_right (by omega) hj))

theorem revN_revN (n x : Nat) (hx : x < 2 ^ n) : revN n (revN n x) = x := by
  apply Nat.eq_of_testBit_eq
  intro j
  rcases Nat.lt_or_ge j n with h | h
  · rw [revN_testBit n _ j h, revN_testBit n x (n - 1 - j) (by omega)]
    congr 1
    omega
  · rw [revN_testBit_high n _ j h]
    exact (Nat.testBit_lt_two_pow (lt_of_lt_of_le hx (Nat.pow_le_pow_right (by omega) h))).symm

theorem revN_xor (n a b : Nat) : revN n (a ^^^ b) = revN n a ^^^ revN n b := by
  apply Nat.eq_of_testBit_eq
  intro j
  rw [Nat.testBit_xor]
  rcases Nat.lt_or_ge j n with h | h
  · rw [revN_testBit n _ j h, revN_testBit n a j h, revN_testBit n b j h, Nat.testBit_xor]
  · rw [revN_testBit_high n _ j h, revN_testBit_high n a j h, revN_testBit_high n b j h]
    rfl

theorem foldl_preserve {β : Type} (P : Nat → Prop) (f : Nat → β → Nat)
    (hf : ∀ a b, P a → P (f a b)) :
    ∀ (l : List β) (a : Nat), P a → P (l.foldl f a)
  | [], _, ha => ha
  | b :: l, a, ha => foldl_preserve P f hf l (f a b) (hf a b ha)

theorem crc16_shift_mirror (r b : Nat) (hr : r < 65536) (hb : b < 2) :
    (2 * revN 16 r + b) % 65536 = revN 16 (r / 2 + b * 32768) := by
  apply Nat.eq_of_testBit_eq
  intro j
  have h65536 : (65536 : Nat) = 2 ^ 16 := by norm_num
  rw [h65536, Nat.testBit_mod_two_pow]
  rcases Nat.lt_or_ge j 16 with hj | hj
  · have hdj : (decide (j < 16) : Bool) = true := by simp [hj]
    rw [hdj, Bool.true_and, revN_testBit 16 _ j hj]
    have hform : r / 2 + b * 32768 = 2 ^ 15 * b + r / 2 := by ring
    have hr2 : r / 2 < 2 ^ 15 := by omega
    rw [hform, Nat.mul_add_lt_is_or hr2, Nat.testBit_lor]
    have hshb : 2 ^ 15 * b = b <<< 15 := by rw [Nat.shiftLeft_eq, Nat.mul_comm]
    rw [hshb, Nat.testBit_shiftLeft]
    rcases eq_or_ne j 0 with hj0 | hj0
    · subst hj0
      have hd15 : (decide (15 ≥ (15 : Nat)) : Bool) = true := by simp
      have h16m : 16 - 1 - 0 = 15 := by omega
      rw [h16m, hd15, Bool.true_and, Nat.sub_self]
      have hhigh : (r / 2).testBit 15 = false := by
        apply Nat.testBit_lt_two_pow
        omega
      rw [hhigh, Bool.or_false, Nat.testBit_zero, Nat.testBit_zero]
      have hb2 : (2 * revN 16 r + b) % 2 = b % 2 := by omega
      rw [hb2]
    · obtain ⟨k, hk⟩ : ∃ k, j = k + 1 := ⟨j - 1, by omega⟩
      subst hk
      have h1 : 16 - 1 - (k + 1) = 14 - k := by omega
      have hd15 : (decide (14 - k ≥ (15 : Nat)) : Bool) = false := by simp; omega
      rw [h1, hd15, Bool.false_and, Bool.false_or, Nat.testBit_div_two]
      have h2 : 14 - k + 1 = 15 - k := by omega
      rw [h2, Nat.testBit_succ]
      have h3 : (2 * revN 16 r + b) / 2 = revN 16 r := by omega
      rw [h3, revN_testBit 16 r k (by omega)]
  · have hdj : (decide (j < 16) : Bool) = false := by simp; omega
    rw [hdj, Bool.false_and, revN_testBit_high 16 _ j hj]

theorem crc16_bit_mirror (poly r b : Nat) (hp : poly < 65536) (hr : r < 65536) (hb : b < 2) :
    crc16_bit poly (revN 16 r) b = revN 16 (crc16lsb_bit (revN 16 poly) r b) := by
  have h65536 : (65536 : Nat) = 2 ^ 16 := by norm_num
  have hout : revN 16 r / 32768 % 2 = r % 2 := by
    have h1 : revN 16 r / 32768 % 2 = ((revN 16 r).testBit 15).toNat := by
      rw [Nat.toNat_testBit]
    have h2 : r % 2 = (r.testBit 0).toNat := by
      rw [Nat.toNat_testBit]
      norm_num
    rw [h1, h2, revN_testBit 16 r 15 (by omega)]
  simp only [crc16_bit, crc16lsb_bit]
  rw [hout]
  rcases eq_or_ne (r % 2) 1 with h | h
  · rw [if_pos h, if_pos h]
    have hxlt : (r / 2 + b * 32768) ^^^ revN 16 poly < 65536 := by
      rw [h65536]
      exact Nat.xor_lt_two_pow (by omega) (revN_lt 16 poly)
    rw [Nat.mod_eq_of_lt hxlt, revN_xor, revN_revN 16 poly (by omega),
      ← crc16_shift_mirror r b hr hb]
    have hxlt2 : (2 * revN 16 r + b) % 65536 ^^^ poly < 65536 := by
      rw [h65536]
      exact Nat.xor_lt_two_pow (by omega) (by omega)
    exact Nat.mod_eq_of_lt hxlt2
  · rw [if_neg h, if_neg h]
    exact crc16_shift_mirror r b hr hb

theorem crc16lsb_bit_lt (poly r b : Nat) (hr : r < 65536) (hb : b < 2) :
    crc16lsb_bit poly r b < 65536 := by
  simp only [crc16lsb_bit]
  split
  · omega
  · omega

theorem crc16_fold_mirror (poly : Nat) (hp : poly < 65536) :
    ∀ (l : List Nat) (f : Nat → Nat), (∀ i ∈ l, f i < 2) → ∀ (r : Nat), r < 65536 →
    l.foldl (fun s i => crc16_bit poly s (f i)) (revN 16 r)
      = revN 16 (l.foldl (fun s i => crc16lsb_bit (revN 16 poly) s (f i)) r)
  | [], _, _, _, _ => rfl
  | i :: l, f, hf, r, hr => by
    simp only [List.foldl_cons]
    rw [crc16_bit_mirror poly r (f i) hp hr (hf i (by simp))]
    exact crc16_fold_mirror poly hp l f (fun j hj => hf j (by simp [hj])) _
      (crc16lsb_bit_lt _ _ _ hr (hf i (by simp)))

theorem reverse8_bit (byte i : Nat) (hi : i < 8) :
    reverse8 byte / 2 ^ (7 - i) % 2 = byte / 2 ^ i % 2 := by
  have h1 : reverse8 byte / 2 ^ (7 - i) % 2 = ((revN 8 byte).testBit (7 - i)).toNat := by
    rw [Nat.toNat_testBit]
    rfl
  have h2 : byte / 2 ^ i % 2 = (byte.testBit i).toNat := by
    rw [Nat.toNat_testBit]
  rw [h1, h2, revN_testBit 8 byte (7 - i) (by omega)]
  congr 2
  omega

theorem crc16_byte_mirror (poly byte r : Nat) (hp : poly < 65536) (hr : r < 65536) :
    (List.range 8).foldl (fun s i => crc16_bit poly s (reverse8 byte / 2 ^ (7 - i) % 2)) (revN 16 r)
      = revN 16 ((List.range 8).foldl (fun s i => crc16lsb_bit (revN 16 poly) s (byte / 2 ^ i % 2)) r) := by
  rw [List.foldl_ext _ _ (revN 16 r)
    (fun s i hi => by rw [reverse8_bit byte i (List.mem_range.mp hi)])]
  exact crc16_fold_mirror poly hp (List.range 8) (fun i => byte / 2 ^ i % 2)
    (fun i _ => Nat.mod_lt _ (by norm_num)) r hr

theorem crc16lsb_byte_lt (poly byte r : Nat) (hr : r < 65536) :
    (List.range 8).foldl (fun s i => crc16lsb_bit poly s (byte / 2 ^ i % 2)) r < 65536 :=
  foldl_preserve (· < 65536) _
    (fun a i ha => crc16lsb_bit_lt poly a _ ha (Nat.mod_lt _ (by norm_num))) (List.range 8) r hr

theorem crc16_msg_mirror (poly : Nat) (hp : poly < 65536) :
    ∀ (B : List Nat) (r : Nat), r < 65536 →
    (B.map reverse8).foldl (fun s byte =>
        (List.range 8).foldl (fun s i => crc16_bit poly s (byte / 2 ^ (7 - i) % 2)) s) (revN 16 r)
      = revN 16 (B.foldl (fun s byte =>
        (List.range 8).foldl (fun s i => crc16lsb_bit (revN 16 poly) s (byte / 2 ^ i % 2)) s) r)
  | [], _, _ => rfl
  | byte :: B, r, hr => by
    simp only [List.map_cons, List.foldl_cons]
    rw [crc16_byte_mirror poly byte r hp hr]
    exact crc16_msg_mirror poly hp B _ (crc16lsb_byte_lt _ _ _ hr)

theorem crc4_bit_lt (poly r b : Nat) : crc4_bit poly r b < 16 := by
  simp only [crc4_bit]
  split <;> omega

theorem crc7_bit_lt (poly r b : Nat) : crc7_bit poly r b < 128 := by
  simp only [crc7_bit]
  split <;> omega

theorem crc8_bit_lt (poly r b : Nat) : crc8_bit poly r b < 256 := by
  simp only [crc8_bit]
  split <;> omega

theorem crc16_bit_lt (poly r b : Nat) : crc16_bit poly r b < 65536 := by
  simp only [crc16_bit]
  split <;> omega

theorem crc8le_bit_lt (poly r b : Nat) (hr : r < 256) (hb : b < 2) :
    crc8le_bit poly r b < 256 := by
  simp only [crc8le_bit]
  split <;> omega

theorem crc4_lt (message : List Nat) (poly init : Nat) (hi : init < 16) :
    crc4 message poly init < 16 :=
  foldl_preserve (· < 16) _ (fun a _ ha =>
    foldl_preserve (· < 16) _ (fun a _ _ => crc4_bit_lt poly a _) (List.range 8) a ha)
    message init hi

theorem crc7_lt (message : List Nat) (poly init : Nat) (hi : init < 128) :
    crc7 message poly init < 128 :=
  foldl_preserve (· < 128) _ (fun a _ ha =>
    foldl_preserve (· < 128) _ (fun a _ _ => crc7_bit_lt poly a _) (List.range 8) a ha)
    message init hi

theorem crc8_lt (message : List Nat) (poly init : Nat) (hi : init < 256) :
    crc8 message poly init < 256 :=
  foldl_preserve (· < 256) _ (fun a _ ha =>
    foldl_preserve (· < 256) _ (fun a _ _ => crc8_bit_lt poly a _) (List.range 8) a ha)
    message init hi

theorem crc16_lt (message : List Nat) (poly init : Nat) (hi : init < 65536) :
    crc16 message poly init < 65536 :=
  foldl_preserve (· < 65536) _ (fun a _ ha =>
    foldl_preserve (· < 65536) _ (fun a _ _ => crc16_bit_lt poly a _) (List.range 8) a ha)
    message init hi

theorem crc8le_lt (message : List Nat) (poly init : Nat) (hi : init < 256) :
    crc8le message poly init < 256 :=
  foldl_preserve (· < 256) _ (fun a _ ha =>
    foldl_preserve (· < 256) _
      (fun a _ ha => crc8le_bit_lt poly a _ ha (Nat.mod_lt _ (by norm_num))) (List.range 8) a ha)
    message init hi

theorem crc16lsb_lt (message : List Nat) (poly init : Nat) (hi : init < 65536) :
    crc16lsb message poly init < 65536 :=
  foldl_preserve (· < 65536) _ (fun a _ ha =>
    foldl_preserve (· < 65536) _
      (fun a _ ha => crc16lsb_bit_lt poly a _ ha (Nat.mod_lt _ (by norm_num))) (List.range 8) a ha)
    message init hi

example (message : List Nat) (poly init : Nat) (hi : init < 16) :
    crc4 message poly init = crcRef 4 false message poly init := by
  have h : crcRef 4 false message poly init = crc4 message poly init % 16 := rfl
  rw [h, Nat.mod_eq_of_lt (crc4_lt message poly init hi)]

example (message : List Nat) (poly init : Nat) (hi : init < 65536) :
    crc16lsb message poly init = crcRef 16 true message poly init := by
  have h : crcRef 16 true message poly init = crc16lsb message poly init % 65536 := rfl
  rw [h, Nat.mod_eq_of_lt (crc16lsb_lt message poly init hi)]

theorem bit_xor_add (a b i : Nat) :
    (a ^^^ b) / 2 ^ i % 2 = (a / 2 ^ i % 2 + b / 2 ^ i % 2) % 2 := by
  rw [← Nat.toNat_testBit, ← Nat.toNat_testBit a i, ← Nat.toNat_testBit b i, Nat.testBit_xor]
  cases a.testBit i <;> cases b.testBit i <;> rfl

theorem xor_of_lt_two : ∀ x < 2, ∀ y < 2, x ^^^ y = (x + y) % 2 := by decide

theorem parity8_xor (a b : Nat) : parity8 (a ^^^ b) = parity8 a ^^^ parity8 b := by
  have hrange : (List.range 8) = [0, 1, 2, 3, 4, 5, 6, 7] := rfl
  simp only [parity8, hrange, List.foldl_cons, List.foldl_nil]
  rw [xor_of_lt_two _ (Nat.mod_lt _ (by norm_num)) _ (Nat.mod_lt _ (by norm_num)),
    bit_xor_add a b 0, bit_xor_add a b 1, bit_xor_add a b 2, bit_xor_add a b 3,
    bit_xor_add a b 4, bit_xor_add a b 5, bit_xor_add a b 6, bit_xor_add a b 7]
  omega

theorem parity_fold : ∀ (l : List Nat) (x : Nat),
    l.foldl (fun p b => p ^^^ parity8 b) (parity8 x)
      = parity8 (l.foldl (fun a b => a ^^^ b) x)
  | [], _ => rfl
  | b :: l, x => by
    simp only [List.foldl_cons]
    rw [← parity8_xor x b]
    exact parity_fold l (x ^^^ b)

theorem reflect_reflect : ∀ (B : List Nat), (∀ b ∈ B, b < 256) →
    reflect_bytes (reflect_bytes B) = B
  | [], _ => rfl
  | b :: B, h => by
    have hb : reverse8 (reverse8 b) = b :=
      revN_revN 8 b (by have := h b (List.mem_cons_self b B); omega)
    have hB : reflect_bytes (reflect_bytes B) = B :=
      reflect_reflect B (fun x hx => h x (List.mem_cons_of_mem b hx))
    simp only [reflect_bytes, List.map_cons] at hB ⊢
    rw [hb, hB]

/-- C1: every CRC variant (crc4, crc7, crc8, crc8le, crc16, crc16lsb) equals
the reference bit-serial computation the spec defines (width-W register
starting at init, one shift per message bit with the bit brought in at the
vacated position and a polynomial XOR when the expelled bit was 1, final
truncation to W bits), at the variant's width and bit direction, for every
message, polynomial, and width-W init. -/
theorem crc_variants_match_reference :
    (∀ message poly init, init < 16 → crc4 message poly init = crcRef 4 false message poly init) ∧
    (∀ message poly init, init < 128 → crc7 message poly init = crcRef 7 false message poly init) ∧
    (∀ message poly init, init < 256 → crc8 message poly init = crcRef 8 false message poly init) ∧
    (∀ message poly init, init < 256 → crc8le message poly init = crcRef 8 true message poly init) ∧
    (∀ message poly init, init < 65536 → crc16 message poly init = crcRef 16 false message poly init) ∧
    (∀ message poly init, init < 65536 →
      crc16lsb message poly init = crcRef 16 true message poly init) := by
  refine ⟨?_, ?_, ?_, ?_, ?_, ?_⟩ <;> intro message poly init hi
  · have h : crcRef 4 false message poly init = crc4 message poly init % 16 := rfl
    rw [h, Nat.mod_eq_of_lt (crc4_lt message poly init hi)]
  · have h : crcRef 7 false message poly init = crc7 message poly init % 128 := rfl
    rw [h, Nat.mod_eq_of_lt (crc7_lt message poly init hi)]
  · have h : crcRef 8 false message poly init = crc8 message poly init % 256 := rfl
    rw [h, Nat.mod_eq_of_lt (crc8_lt message poly init hi)]
  · have h : crcRef 8 true message poly init = crc8le message poly init % 256 := rfl
    rw [h, Nat.mod_eq_of_lt (crc8le_lt message poly init hi)]
  · have h : crcRef 16 false message poly init = crc16 message poly init % 65536 := rfl
    rw [h, Nat.mod_eq_of_lt (crc16_lt message poly init hi)]
  · have h : crcRef 16 true message poly init = crc16lsb message poly init % 65536 := rfl
    rw [h, Nat.mod_eq_of_lt (crc16lsb_lt message poly init hi)]

/-- C1 witness: the six refinements instantiated on concrete inputs. -/
theorem crc_variants_match_reference_witness :
    crc4 [190, 85] 3 5 = crcRef 4 false [190, 85] 3 5 ∧
    crc7 [190, 85] 69 18 = crcRef 7 false [190, 85] 69 18 ∧
    crc8 [190, 85] 49 0 = crcRef 8 false [190, 85] 49 0 ∧
    crc8le [190, 85] 140 0 = crcRef 8 true [190, 85] 140 0 ∧
    crc16 [190, 85] 4129 65535 = crcRef 16 false [190, 85] 4129 65535 ∧
    crc16lsb [190, 85] 33800 65535 = crcRef 16 true [190, 85] 33800 65535 :=
  ⟨crc_variants_match_reference.1 _ _ _ (by norm_num),
   crc_variants_match_reference.2.1 _ _ _ (by norm_num),
   crc_variants_match_reference.2.2.1 _ _ _ (by norm_num),
   crc_variants_match_reference.2.2.2.1 _ _ _ (by norm_num),
   crc_variants_match_reference.2.2.2.2.1 _ _ _ (by norm_num),
   crc_variants_match_reference.2.2.2.2.2 _ _ _ (by norm_num)⟩

/-- C2 counterexample: on the spec's own shift-register algorithm, crc8 of
the single byte 0xBE with polynomial 0x31 and init 0x00 is not 0x92 (a
single byte is entirely shifted into the zero-seeded 8-bit register before
any feedback can fire, so the result is the byte itself). -/
theorem crc8_BE_not_0x92 : crc8 [190] 49 0 ≠ 146 := by decide

/-- C2 amended: crc8 applied to the single-byte message 0xBE with
polynomial 0x31 and init 0x00 returns 0xBE. -/
theorem crc8_BE_value : crc8 [190] 49 0 = 190 := by decide

/-- C3: with an empty message every CRC variant returns init unchanged for
every polynomial and init, and parity_bytes, xor_bytes, and add_bytes
return 0. -/
theorem empty_input_returns_seed :
    (∀ poly init : Nat, crc4 [] poly init = init) ∧
    (∀ poly init : Nat, crc7 [] poly init = init) ∧
    (∀ poly init : Nat, crc8 [] poly init = init) ∧
    (∀ poly init : Nat, crc8le [] poly init = init) ∧
    (∀ poly init : Nat, crc16 [] poly init = init) ∧
    (∀ poly init : Nat, crc16lsb [] poly init = init) ∧
    parity_bytes [] = 0 ∧ xor_bytes [] = 0 ∧ add_bytes [] = 0 :=
  ⟨fun _ _ => rfl, fun _ _ => rfl, fun _ _ => rfl, fun _ _ => rfl, fun _ _ => rfl,
   fun _ _ => rfl, rfl, rfl, rfl⟩

/-- C4: bit i of reverse8 x equals bit (7-i) of x for every i in 0..7, and
reverse8 is total with a byte-sized result on every input. -/
theorem reverse8_bit_property :
    (∀ x i, i < 8 → reverse8 x / 2 ^ i % 2 = x / 2 ^ (7 - i) % 2) ∧
    (∀ x, reverse8 x < 256) := by
  constructor
  · intro x i hi
    rw [← Nat.toNat_testBit, ← Nat.toNat_testBit x (7 - i)]
    show ((revN 8 x).testBit i).toNat = (x.testBit (7 - i)).toNat
    rw [revN_testBit 8 x i hi]
  · intro x
    show revN 8 x < 256
    have := revN_lt 8 x
    omega

/-- C4 witness: the bit property instantiated at x = 0xBE, i = 2. -/
theorem reverse8_bit_property_witness :
    reverse8 190 / 2 ^ 2 % 2 = 190 / 2 ^ 5 % 2 :=
  reverse8_bit_property.1 190 2 (by norm_num)

/-- C5: reverse8 is an involution on bytes, and reflect_bytes applied twice
to a buffer of bytes restores it exactly. -/
theorem reverse8_reflect_involution :
    (∀ x, x < 256 → reverse8 (reverse8 x) = x) ∧
    (∀ B : List Nat, (∀ b ∈ B, b < 256) → reflect_bytes (reflect_bytes B) = B) := by
  constructor
  · intro x hx
    exact revN_revN 8 x (by omega)
  · exact reflect_reflect

/-- C5 witness: the involutions instantiated at 0xBE and [0xBE, 0x55]. -/
theorem reverse8_reflect_involution_witness :
    reverse8 (reverse8 190) = 190 ∧ reflect_bytes (reflect_bytes [190, 85]) = [190, 85] :=
  ⟨reverse8_reflect_involution.1 190 (by norm_num),
   reverse8_reflect_involution.2 [190, 85] (by decide)⟩

/-- C6: crc16 and crc16lsb agree on the same logical message — the bit
stream crc16lsb reads LSB-first from B is the one crc16 reads MSB-first
from the per-byte-reflected buffer — with correspondingly bit-reflected
polynomial and init, after reflecting the bits of the crc16lsb result. -/
theorem crc16_cross_variant_consistency (B : List Nat) (poly init : Nat)
    (hp : poly < 65536) (hi : init < 65536) :
    reverse16 (crc16lsb B (reverse16 poly) (reverse16 init))
      = crc16 (reflect_bytes B) poly init := by
  have hmir := crc16_msg_mirror poly hp B (revN 16 init) (revN_lt 16 init)
  rw [revN_revN 16 init (by omega)] at hmir
  exact hmir.symm

/-- C6 witness: the cross-variant identity at B = [0x12, 0x34],
poly = 0x1021, init = 0xFFFF. -/
theorem crc16_cross_variant_consistency_witness :
    reverse16 (crc16lsb [18, 52] (reverse16 4129) (reverse16 65535))
      = crc16 (reflect_bytes [18, 52]) 4129 65535 :=
  crc16_cross_variant_consistency [18, 52] 4129 65535 (by norm_num) (by norm_num)

/-- C7: for every buffer, parity_bytes equals parity8 applied to xor_bytes:
the XOR-reduction of per-byte parities is the bit parity of the bytewise
XOR of the buffer. -/
theorem parity_bytes_eq_parity8_of_xor_bytes (B : List Nat) :
    parity_bytes B = parity8 (xor_bytes B) := by
  have h := parity_fold B 0
  have h0 : parity8 0 = 0 := by decide
  rw [h0] at h
  exact h

/-- C8: lfsr_digest16 called with bits greater than 32 fails with
InvalidBitCount instead of reading undefined bits. -/
theorem lfsr_digest16_rejects_bits_over_32 (data : Nat) (bits : Int) (gen key : Nat)
    (h : 32 < bits) :
    lfsr_digest16 data bits gen key = Except.error UtilError.InvalidBitCount := by
  unfold lfsr_digest16
  rw [if_pos h]

/-- C8 witness: the rejection at bits = 33. -/
theorem lfsr_digest16_rejects_bits_over_32_witness :
    lfsr_digest16 4660 33 34832 43977 = Except.error UtilError.InvalidBitCount :=
  lfsr_digest16_rejects_bits_over_32 4660 33 34832 43977 (by norm_num)

/-- C9: lfsr_digest8 and lfsr_digest16 are deterministic — two calls with
identical (message, gen, key), respectively (data, bits, gen, key), return
equal digests. -/
theorem lfsr_digest_deterministic :
    (∀ (m1 m2 : List Nat) (g1 g2 k1 k2 : Nat), m1 = m2 → g1 = g2 → k1 = k2 →
      lfsr_digest8 m1 g1 k1 = lfsr_digest8 m2 g2 k2) ∧
    (∀ (d1 d2 : Nat) (b1 b2 : Int) (g1 g2 k1 k2 : Nat),
      d1 = d2 → b1 = b2 → g1 = g2 → k1 = k2 →
      lfsr_digest16 d1 b1 g1 k1 = lfsr_digest16 d2 b2 g2 k2) := by
  constructor
  · intro m1 m2 g1 g2 k1 k2 hm hg hk
    rw [hm, hg, hk]
  · intro d1 d2 b1 b2 g1 g2 k1 k2 hd hb hg hk
    rw [hd, hb, hg, hk]

/-- C9 witness: determinism instantiated on concrete calls. -/
theorem lfsr_digest_deterministic_witness :
    lfsr_digest8 [18, 52] 152 241 = lfsr_digest8 [18, 52] 152 241 ∧
    lfsr_digest16 4660 16 34832 43977 = lfsr_digest16 4660 16 34832 43977 :=
  ⟨lfsr_digest_deterministic.1 [18, 52] [18, 52] 152 152 241 241 rfl rfl rfl,
   lfsr_digest_deterministic.2 4660 4660 16 16 34832 34832 43977 43977 rfl rfl rfl rfl⟩

/-- C10: lfsr_digest16 takes a signed bit count, and for every bits ≤ 0 it
returns 0 — the zero-seeded digest with no message bits consumed. -/
theorem lfsr_digest16_nonpositive_bits (data : Nat) (bits : Int) (gen key : Nat)
    (h : bits ≤ 0) : lfsr_digest16 data bits gen key = Except.ok 0 := by
  unfold lfsr_digest16
  rw [if_neg (by omega), show bits.toNat = 0 by omega]
  rfl

/-- C10 witness: the zero digest at bits = -3. -/
theorem lfsr_digest16_nonpositive_bits_witness :
    lfsr_digest16 4660 (-3) 34832 43977 = Except.ok 0 :=
  lfsr_digest16_nonpositive_bits 4660 (-3) 34832 43977 (by norm_num)
